import Mathlib

/-!
The credential fallback pull flow of `main.go`

A shallow embedding of `PullImage` (`src/main.go`, lines 95-152).

* Go strings are modelled by `String`.  The only separator and the only
  prefixes the source uses are ASCII, so splitting and prefix tests on
  characters agree with the byte-wise ones of Go.
* The external collaborators (`parsers.ParseImageName`, `url.Parse`,
  `credentialprovider.MakeDockerKeyring`, `keyring.Lookup`,
  `credentialprovider.LazyProvide` and the registry call behind
  `PullManifest`) are fields of a `Collaborators` record.
  A call's result depends only on its arguments.  `PullManifest` answers
  with the Go pair `(interface{}, error)`, either component possibly nil.
* A run of `PullImage` yields its Go result together with the ordered log of
  the keyring lookups, credential materialisations and `PullManifest` calls
  it made.  The console output of lines 104 and 128 is not modelled.
* `ParseImageName` below is the parser the program is linked with
  (`k8s.io/kubernetes/pkg/util/parsers` over
  `github.com/docker/distribution/reference`), written out from its
  regular expressions; the worlds of the examples use it.
-/

namespace DockerDemo

/-! ## Strings -/

/-- Go `strings.HasPrefix(s, pre)`. -/
def HasPrefix (s pre : String) : Bool :=
  pre.data.isPrefixOf s.data

/-- Position-free form of Go `strings.Index` for a one character separator:
the text before the first `sep` and the text after it, or `none` when `sep`
does not occur. -/
def cut (sep : Char) : List Char → Option (List Char × List Char)
  | [] => none
  | c :: cs =>
    if c = sep then some ([], cs)
    else
      match cut sep cs with
      | none => none
      | some (a, b) => some (c :: a, b)

/-- Go `strings.SplitN(s, sep, n)` for `n ≥ 0` and a one character separator
(the source calls it with `"/"` and `2`): at most `n` pieces, the last one
being the unsplit remainder; `n = 0` gives no piece at all. -/
def SplitN (s : String) (sep : Char) : Nat → List String
  | 0 => []
  | 1 => [s]
  | n + 2 =>
    match cut sep s.data with
    | none => [s]
    | some (a, b) => String.mk a :: SplitN (String.mk b) sep (n + 1)

/-! ## Data -/

/-- The `AuthConfig` struct of `main.go` (lines 166-171). -/
structure AuthConfig where
  Username : String
  Password : String
  Auth : String
  ServerAddress : String
  deriving DecidableEq, Repr

/-- A Go `error` value that is not nil: either an error produced by a
collaborator, or the aggregate built by `utilerrors.NewAggregate`. -/
inductive PullError (E : Type) where
  | plain (err : E)
  | aggregate (errs : List E)
  deriving DecidableEq, Repr

/-- How a call of `PullImage` ends: it returns the Go pair
`(interface{}, error)`, each component possibly nil (`none`), or it stops
with the run-time panic "index out of range" at `parts[1]`. -/
inductive Outcome (E M : Type) where
  | returned (mf : Option M) (err : Option (PullError E))
  | indexOutOfRange
  deriving DecidableEq, Repr

/-- The observable calls `PullImage` makes, in program order. -/
inductive Event (C : Type) where
  | lookup (image : String)
  | provide (cred : C)
  | fetch (repo ref : String) (auth : AuthConfig)
  deriving DecidableEq, Repr

/-- The functions `PullImage` calls that live outside `main.go`.
`S` is the type of the secret list, `K` of a keyring, `C` of a lazy
credential entry, `E` of (non-nil) errors and `M` of (non-nil) manifests. -/
structure Collaborators (S K C E M : Type) where
  /-- `parsers.ParseImageName`: repository name, tag and digest, or an error. -/
  ParseImageName : String → Except E (String × String × String)
  /-- `url.Parse`, of which the source keeps only the error (`none` is nil). -/
  urlParse : String → Option E
  /-- `credentialprovider.MakeDockerKeyring(pullSecrets, NewDockerKeyring())`. -/
  MakeDockerKeyring : S → Except E K
  /-- `keyring.Lookup`: the candidates and the found flag. -/
  Lookup : K → String → List C × Bool
  /-- `credentialprovider.LazyProvide`; only the four fields the source
  reads are kept. -/
  LazyProvide : C → AuthConfig
  /-- `PullManifest` (lines 154-163), a registry round trip.  It returns what
  `hub.ManifestVx` returns: the Go pair of a manifest and an error, each of
  which may be nil. -/
  PullManifest : String → String → AuthConfig → Option M × Option E

/-- `utilerrors.NewAggregate`: nil for an empty list, otherwise the aggregate
of the listed errors (the entries of `pullErrs` are never nil). -/
def NewAggregate {E : Type} (errlist : List E) : Option (PullError E) :=
  match errlist with
  | [] => none
  | _ :: _ => some (PullError.aggregate errlist)

/-! ## The program -/

/-- Lines 110-115 of `PullImage`: the hub alias rewrite followed by the
scheme enforcement, as a function of `regURL`. -/
def normalize (regURL : String) : String :=
  let regURL :=
    if HasPrefix regURL "docker.io" || HasPrefix regURL "index.docker.io" then
      "registry-1.docker.io"
    else regURL
  if !HasPrefix regURL "https://" && !HasPrefix regURL "http://" then
    "https://" ++ regURL
  else regURL

/-- Lines 135-143 of `PullImage`: the `AuthConfig` built for one candidate,
whose server address falls back to `regURL` when it is empty. -/
def candidateAuth (regURL : String) (authConfig : AuthConfig) : AuthConfig :=
  let auth : AuthConfig :=
    { Username := authConfig.Username
      Password := authConfig.Password
      Auth := authConfig.Auth
      ServerAddress := authConfig.ServerAddress }
  if auth.ServerAddress = "" then { auth with ServerAddress := regURL } else auth

/-- Lines 132-151 of `PullImage`: the loop over the candidates, with the
accumulator `pullErrs` and the log of calls made so far.  Line 146 tests the
error alone: with a nil error the manifest is returned whatever it is. -/
def candidateLoop {S K C E M : Type} (w : Collaborators S K C E M)
    (repo ref regURL : String) :
    List C → List E → List (Event C) → Outcome E M × List (Event C)
  | [], pullErrs, log => (Outcome.returned none (NewAggregate pullErrs), log)
  | currentCreds :: rest, pullErrs, log =>
    let authConfig := w.LazyProvide currentCreds
    let auth := candidateAuth regURL authConfig
    let log := log ++ [Event.provide currentCreds, Event.fetch repo ref auth]
    match w.PullManifest repo ref auth with
    | (mf, none) => (Outcome.returned mf none, log)
    | (_, some err) => candidateLoop w repo ref regURL rest (pullErrs ++ [err]) log

/-- Lines 121-151 of `PullImage`: everything after the endpoint has been
validated.  Line 129 hands the pair of the anonymous call to the caller as it
is. -/
def pullWith {S K C E M : Type} (w : Collaborators S K C E M) (pullSecrets : S)
    (repoToPull repo ref regURL : String) : Outcome E M × List (Event C) :=
  match w.MakeDockerKeyring pullSecrets with
  | Except.error err => (Outcome.returned none (some (PullError.plain err)), [])
  | Except.ok keyring =>
    match w.Lookup keyring repoToPull with
    | (_, false) =>
      (Outcome.returned
          (w.PullManifest repo ref
            { Username := "", Password := "", Auth := "", ServerAddress := regURL }).1
          ((w.PullManifest repo ref
            { Username := "", Password := "", Auth := "", ServerAddress := regURL }).2.map
              PullError.plain),
        [Event.lookup repoToPull,
         Event.fetch repo ref
           { Username := "", Password := "", Auth := "", ServerAddress := regURL }])
    | (creds, true) =>
      candidateLoop w repo ref regURL creds [] [Event.lookup repoToPull]

/-- `PullImage` (lines 95-152). -/
def PullImage {S K C E M : Type} (w : Collaborators S K C E M)
    (img : String) (pullSecrets : S) : Outcome E M × List (Event C) :=
  match w.ParseImageName img with
  | Except.error err => (Outcome.returned none (some (PullError.plain err)), [])
  | Except.ok (repoToPull, tag, digest) =>
    let parts := SplitN repoToPull '/' 2
    match parts[0]?, parts[1]? with
    | some regURL, some repo =>
      let ref := if tag = "" then digest else tag
      let regURL := normalize regURL
      match w.urlParse regURL with
      | some err => (Outcome.returned none (some (PullError.plain err)), [])
      | none => pullWith w pullSecrets repoToPull repo ref regURL
    | _, _ => (Outcome.indexOutOfRange, [])

/-- The number of `PullManifest` calls in a log. -/
def fetchCount {C : Type} (log : List (Event C)) : Nat :=
  (log.filter fun ev => match ev with
    | Event.fetch _ _ _ => true
    | _ => false).length

/-- The number of credential materialisations in a log. -/
def provideCount {C : Type} (log : List (Event C)) : Nat :=
  (log.filter fun ev => match ev with
    | Event.provide _ => true
    | _ => false).length

/-- The calls made for the candidates `creds`, all of them attempted. -/
def attempts {S K C E M : Type} (w : Collaborators S K C E M)
    (repo ref regURL : String) (creds : List C) : List (Event C) :=
  creds.flatMap fun c =>
    [Event.provide c, Event.fetch repo ref (candidateAuth regURL (w.LazyProvide c))]

/-- The hub alias test of line 110. -/
def isHubAlias (regURL : String) : Bool :=
  HasPrefix regURL "docker.io" || HasPrefix regURL "index.docker.io"

/-- The scheme test of line 113, without its negations. -/
def hasScheme (regURL : String) : Bool :=
  HasPrefix regURL "https://" || HasPrefix regURL "http://"

/-- The `PullManifest` call the loop makes for the candidate `c`. -/
def fetchFor {S K C E M : Type} (w : Collaborators S K C E M)
    (repo ref regURL : String) (c : C) : Option M × Option E :=
  w.PullManifest repo ref (candidateAuth regURL (w.LazyProvide c))

/-- The `AuthConfig` of the anonymous call of line 129. -/
def anonymousAuth (regURL : String) : AuthConfig :=
  { Username := "", Password := "", Auth := "", ServerAddress := regURL }

/-- The effective reference of lines 105-108. -/
def effectiveRef (tag digest : String) : String :=
  if tag = "" then digest else tag

/-- A Go pair `(value, error)` that holds exactly one of the two. -/
def exactlyOne {A B : Type} (p : Option A × Option B) : Prop :=
  (p.1 ≠ none ∧ p.2 = none) ∨ (p.1 = none ∧ p.2 ≠ none)

/-! ## The reference parser the program is linked with -/

/-- Runs a deterministic automaton from the state `q`; `step` is its partial
transition function and `final` marks the accepting states. -/
def accepts {σ : Type} (step : σ → Char → Option σ) (final : σ → Bool) :
    σ → List Char → Bool
  | q, [] => final q
  | q, c :: cs =>
    match step q c with
    | none => false
    | some q' => accepts step final q' cs

/-- The class `[a-z0-9]`. -/
def isLowerNum (c : Char) : Bool := c.isLower || c.isDigit

/-- The class `[[:xdigit:]]`. -/
def isHexDigit (c : Char) : Bool :=
  c.isDigit || (decide ('a' ≤ c) && decide (c ≤ 'f')) ||
    (decide ('A' ≤ c) && decide (c ≤ 'F'))

/-- The class `\w` of Go regular expressions, `[0-9A-Za-z_]`. -/
def isWord (c : Char) : Bool := c.isAlphanum || c = '_'

/-- States of the automaton of a name component: an alphanumeric is needed,
an alphanumeric was read, one underscore was read, dashes were read. -/
inductive ComponentState where
  | need
  | alnum
  | under
  | dash
  deriving DecidableEq

/-- Transitions for `nameComponentRegexp`,
`[a-z0-9]+(?:(?:[._]|__|[-]*)[a-z0-9]+)*`: runs of `[a-z0-9]` separated by
one period, one or two underscores, or any number of dashes. -/
def componentStep : ComponentState → Char → Option ComponentState
  | .need, c => if isLowerNum c then some .alnum else none
  | .alnum, c =>
    if isLowerNum c then some .alnum
    else if c = '.' then some .need
    else if c = '_' then some .under
    else if c = '-' then some .dash
    else none
  | .under, c =>
    if isLowerNum c then some .alnum
    else if c = '_' then some .need
    else none
  | .dash, c =>
    if isLowerNum c then some .alnum
    else if c = '-' then some .dash
    else none

/-- The anchored `nameComponentRegexp`. -/
def isNameComponent (l : List Char) : Bool :=
  accepts componentStep (fun q => q = .alnum) .need l

/-- States of the automaton of a domain. -/
inductive DomainState where
  | need
  | alnum
  | dash
  | portNeed
  | port
  deriving DecidableEq

/-- Transitions for `DomainRegexp`: components
`[a-zA-Z0-9]|[a-zA-Z0-9][a-zA-Z0-9-]*[a-zA-Z0-9]` joined by periods, then an
optional colon and port `[0-9]+`. -/
def domainStep : DomainState → Char → Option DomainState
  | .need, c => if c.isAlphanum then some .alnum else none
  | .alnum, c =>
    if c.isAlphanum then some .alnum
    else if c = '-' then some .dash
    else if c = '.' then some .need
    else if c = ':' then some .portNeed
    else none
  | .dash, c =>
    if c.isAlphanum then some .alnum
    else if c = '-' then some .dash
    else none
  | .portNeed, c => if c.isDigit then some .port else none
  | .port, c => if c.isDigit then some .port else none

/-- The anchored `DomainRegexp`. -/
def isDomain (l : List Char) : Bool :=
  accepts domainStep (fun q => q = .alnum || q = .port) .need l

/-- States of the automaton of a tag. -/
inductive TagState where
  | first
  | rest
  deriving DecidableEq

/-- Transitions for `TagRegexp`: one `\w`, then characters of `[\w.-]`. -/
def tagStep : TagState → Char → Option TagState
  | .first, c => if isWord c then some .rest else none
  | .rest, c => if isWord c || c = '.' || c = '-' then some .rest else none

/-- The anchored `TagRegexp`: one `\w` and at most 127 more characters of
`[\w.-]`. -/
def isTag (l : List Char) : Bool :=
  accepts tagStep (fun q => q = .rest) .first l && decide (l.length ≤ 128)

/-- States of the automaton of a digest; `hex n` has read `n` hexadecimal
digits after the colon. -/
inductive DigestState where
  | algNeed
  | alg
  | hex (n : Nat)
  deriving DecidableEq

/-- Transitions for `DigestRegexp`: an algorithm
`[A-Za-z][A-Za-z0-9]*(?:[-_+.][A-Za-z][A-Za-z0-9]*)*`, a colon, and
hexadecimal digits. -/
def digestStep : DigestState → Char → Option DigestState
  | .algNeed, c => if c.isAlpha then some .alg else none
  | .alg, c =>
    if c.isAlphanum then some .alg
    else if c = '-' || c = '_' || c = '+' || c = '.' then some .algNeed
    else if c = ':' then some (.hex 0)
    else none
  | .hex n, c => if isHexDigit c then some (.hex (n + 1)) else none

/-- The anchored `DigestRegexp`, with its 32 hexadecimal digits or more. -/
def isDigest (l : List Char) : Bool :=
  accepts digestStep
    (fun q => match q with
      | .hex n => decide (32 ≤ n)
      | _ => false)
    .algNeed l

/-- Go `strings.Split(s, sep)` for a one character separator. -/
def splitAll (sep : Char) : List Char → List (List Char)
  | [] => [[]]
  | c :: cs =>
    if c = sep then [] :: splitAll sep cs
    else
      match splitAll sep cs with
      | seg :: segs => (c :: seg) :: segs
      | [] => [[c]]

/-- The anchored `NameRegexp`: an optional domain followed by `/`, then name
components joined by `/`. -/
def isName (l : List Char) : Bool :=
  match splitAll '/' l with
  | [] => false
  | d :: rest =>
    (!rest.isEmpty && isDomain d && rest.all isNameComponent) ||
      (d :: rest).all isNameComponent

/-- The name and the tag of the text before the digest.  Neither a tag nor a
name component holds a colon and a tag holds no `/`, so the tag, if any,
begins after the first colon that no `/` follows. -/
def splitTag : List Char → List Char × Option (List Char)
  | [] => ([], none)
  | c :: cs =>
    if c = ':' ∧ '/' ∉ cs then ([], some cs)
    else (c :: (splitTag cs).1, (splitTag cs).2)

/-- `reference.Parse`: the match of `ReferenceRegexp`, that is a name, an
optional `:` and tag and an optional `@` and digest, the bound of 255 on the
length of the name, and `digest.Parse` on the digest.  The parameter
`digestParse` stands for `digest.Parse` (true when it returns no error); no
name, tag or digest holds an `@`, so the digest, if any, begins after the
first one. -/
def Parse (digestParse : String → Bool) (s : String) :
    Option (String × String × String) :=
  let ld : List Char × Option (List Char) :=
    match cut '@' s.data with
    | none => (s.data, none)
    | some (a, b) => (a, some b)
  let nt := splitTag ld.1
  let tagOk :=
    match nt.2 with
    | none => true
    | some t => isTag t
  let digestOk :=
    match ld.2 with
    | none => true
    | some d => isDigest d && digestParse (String.mk d)
  if isName nt.1 && tagOk && digestOk && decide (nt.1.length ≤ 255) then
    some (String.mk nt.1, String.mk (nt.2.getD []), String.mk (ld.2.getD []))
  else none

/-- The function `splitDockerDomain` of `reference/normalize.go`: the text
before the first `/` is the domain when it holds a period or a colon or is
`localhost`; otherwise the domain is `docker.io`.  The legacy domain
`index.docker.io` becomes `docker.io`, and a remainder without `/` under
`docker.io` goes below `library/`. -/
def splitDockerDomain (name : String) : String × String :=
  let dr : String × String :=
    match cut '/' name.data with
    | none => ("docker.io", name)
    | some (a, b) =>
      if !a.any (fun c => c = '.' || c = ':') && String.mk a ≠ "localhost" then
        ("docker.io", name)
      else (String.mk a, String.mk b)
  let domain := if dr.1 = "index.docker.io" then "docker.io" else dr.1
  let remainder :=
    if domain = "docker.io" ∧ '/' ∉ dr.2.data then "library/" ++ dr.2 else dr.2
  (domain, remainder)

/-- The anchored `IdentifierRegexp`: 64 characters of `[a-f0-9]`. -/
def isIdentifier (s : String) : Bool :=
  decide (s.data.length = 64) &&
    s.data.all (fun c => c.isDigit || (decide ('a' ≤ c) && decide (c ≤ 'f')))

/-- `reference.ParseNormalizedNamed`: an identifier is refused, the domain is
split off and normalised, a remainder with an upper case letter before its
first colon is refused, and the rest is left to `Parse`.  The result is the
name, the tag and the digest, each empty when absent; `none` is an error. -/
def ParseNormalizedNamed (digestParse : String → Bool) (s : String) :
    Option (String × String × String) :=
  if isIdentifier s then none
  else
    let dr := splitDockerDomain s
    let remoteName :=
      match cut ':' dr.2.data with
      | none => dr.2.data
      | some (a, _) => a
    if remoteName.any Char.isUpper then none
    else Parse digestParse (dr.1 ++ "/" ++ dr.2)

/-- `parsers.ParseImageName`: the normalised name, the tag and the digest,
with the tag `latest` when there is neither tag nor digest. -/
def ParseImageName (digestParse : String → Bool) (image : String) :
    Option (String × String × String) :=
  match ParseNormalizedNamed digestParse image with
  | none => none
  | some (repoToPull, tag, digest) =>
    some (repoToPull, if tag = "" ∧ digest = "" then "latest" else tag, digest)

/-- The check of `digest.Parse`: one of the algorithms `sha256`, `sha384`
and `sha512` with a hexadecimal part of twice its size. -/
def digestValidate (s : String) : Bool :=
  match cut ':' s.data with
  | none => false
  | some (alg, hex) =>
    (String.mk alg = "sha256" && hex.length = 64) ||
    (String.mk alg = "sha384" && hex.length = 96) ||
    (String.mk alg = "sha512" && hex.length = 128)

/-- A world is linked with the parser when its `ParseImageName` accepts
exactly what `ParseImageName digestParse` accepts, with the same result. -/
def linkedWithParser {S K C E M : Type} (w : Collaborators S K C E M)
    (digestParse : String → Bool) : Prop :=
  ∀ image : String,
    match ParseImageName digestParse image with
    | some r => w.ParseImageName image = Except.ok r
    | none => ∃ e : E, w.ParseImageName image = Except.error e

/-! ## Concrete worlds for the examples -/

/-- A world for the examples.  It parses references with `ParseImageName`;
its URL check accepts every endpoint; its keyring offers the candidates `0, 1, 2` for `"r.example/team/app"` and
`0, 2` for `"r.example/team/locked"`, of which only candidate `2` brings a
server address of its own; its registry serves `"appscode/voyager"` and
`"library/nginx"` to anyone, `"team/app"` to the user `"carol"` only and
`"team/locked"` to nobody, and knows no other repository. -/
def demo : Collaborators Unit Unit Nat String String where
  ParseImageName := fun img =>
    match ParseImageName digestValidate img with
    | some r => Except.ok r
    | none => Except.error "invalid reference format"
  urlParse := fun _ => none
  MakeDockerKeyring := fun _ => Except.ok ()
  Lookup := fun _ image =>
    if image = "r.example/team/app" then ([0, 1, 2], true)
    else if image = "r.example/team/locked" then ([0, 2], true)
    else ([], false)
  LazyProvide := fun c =>
    if c = 0 then { Username := "alice", Password := "a", Auth := "", ServerAddress := "" }
    else if c = 1 then
      { Username := "carol", Password := "c", Auth := "", ServerAddress := "" }
    else
      { Username := "dave", Password := "d", Auth := "",
        ServerAddress := "http://mirror.example" }
  PullManifest := fun repo _ auth =>
    if repo = "appscode/voyager" ∨ repo = "library/nginx" then
      (some ("manifest of " ++ repo), none)
    else if repo = "team/app" ∧ auth.Username = "carol" then
      (some "manifest for carol", none)
    else if repo = "team/app" ∨ repo = "team/locked" then
      (none, some ("denied: " ++ auth.Username))
    else (none, some "manifest unknown")

/-- The world `demo` with a keyring that reports found without offering any
candidate. -/
def emptyFound : Collaborators Unit Unit Nat String String :=
  { demo with Lookup := fun _ _ => ([], true) }

/-- The world `demo` with a keyring that offers candidate `2`, the one with a
server address of its own, for every repository. -/
def mirrored : Collaborators Unit Unit Nat String String :=
  { demo with Lookup := fun _ _ => ([2], true) }

/-- The world `demo` with a URL check that refuses a port of more than five
digits. -/
def strictPorts : Collaborators Unit Unit Nat String String :=
  { demo with
    urlParse := fun u =>
      match cut ':' (u.data.drop 8) with
      | some (_, port) => if 5 < port.length then some "invalid port" else none
      | none => none }

/-! ## Strings: prefixes and splitting -/

theorem hasPrefix_iff (s pre : String) :
    HasPrefix s pre = true ↔ pre.data <+: s.data := by
  unfold HasPrefix
  exact List.isPrefixOf_iff_prefix

theorem hasPrefix_append (pre x : String) : HasPrefix (pre ++ x) pre = true := by
  rw [hasPrefix_iff, String.data_append]
  exact List.prefix_append _ _

theorem mem_of_hasPrefix {s pre : String} {c : Char}
    (h : HasPrefix s pre = true) (hc : c ∈ pre.data) : c ∈ s.data := by
  rw [hasPrefix_iff] at h
  exact h.subset hc

theorem head_of_hasPrefix {s pre : String} {c : Char} {cs : List Char}
    (h : HasPrefix s pre = true) (hp : pre.data = c :: cs) : s.data.head? = some c := by
  rw [hasPrefix_iff, hp] at h
  obtain ⟨t, ht⟩ := h
  rw [← ht]
  rfl

theorem hasPrefix_false_of_head {s p q : String} {c d : Char} (cs ds : List Char)
    (h : HasPrefix s p = true) (hp : p.data = c :: cs) (hq : q.data = d :: ds)
    (hcd : c ≠ d) : HasPrefix s q = false := by
  cases hsq : HasPrefix s q with
  | false => rfl
  | true =>
    have h1 := head_of_hasPrefix h hp
    have h2 := head_of_hasPrefix hsq hq
    rw [h1] at h2
    exact absurd (Option.some.inj h2) hcd

theorem cut_some {sep : Char} {l a b : List Char} (h : cut sep l = some (a, b)) :
    l = a ++ sep :: b ∧ sep ∉ a := by
  induction l generalizing a b with
  | nil => simp [cut] at h
  | cons c cs ih =>
    unfold cut at h
    split at h
    · rename_i hc
      simp only [Option.some.injEq, Prod.mk.injEq] at h
      obtain ⟨rfl, rfl⟩ := h
      simp [hc]
    · rename_i hc
      split at h
      · simp at h
      · rename_i a1 b1 hcut
        simp only [Option.some.injEq, Prod.mk.injEq] at h
        obtain ⟨rfl, rfl⟩ := h
        obtain ⟨h1, h2⟩ := ih hcut
        refine ⟨by rw [h1]; rfl, ?_⟩
        intro hm
        rcases List.mem_cons.mp hm with h3 | h3
        · exact hc h3.symm
        · exact h2 h3

theorem cut_none {sep : Char} {l : List Char} (h : cut sep l = none) : sep ∉ l := by
  induction l with
  | nil => simp
  | cons c cs ih =>
    unfold cut at h
    split at h
    · simp at h
    · rename_i hc
      split at h
      · rename_i hcut
        intro hm
        rcases List.mem_cons.mp hm with h3 | h3
        · exact hc h3.symm
        · exact ih hcut h3
      · simp at h

theorem splitN_two (s : String) (sep : Char) :
    SplitN s sep 2 =
      match cut sep s.data with
      | none => [s]
      | some (a, b) => [String.mk a, String.mk b] := by
  unfold SplitN
  split <;> simp_all [SplitN]

theorem splitN_two_of_not_mem {s : String} {sep : Char} (h : sep ∉ s.data) :
    SplitN s sep 2 = [s] := by
  rw [splitN_two]
  cases hc : cut sep s.data with
  | none => rfl
  | some ab =>
    obtain ⟨a, b⟩ := ab
    have := (cut_some hc).1
    exact absurd (by rw [this]; simp) h

theorem splitN_two_of_mem {s : String} {sep : Char} (h : sep ∈ s.data) :
    ∃ host repo : String, SplitN s sep 2 = [host, repo] ∧
      s = host ++ String.singleton sep ++ repo ∧ sep ∉ host.data := by
  rw [splitN_two]
  cases hc : cut sep s.data with
  | none => exact absurd h (cut_none hc)
  | some ab =>
    obtain ⟨a, b⟩ := ab
    obtain ⟨h1, h2⟩ := cut_some hc
    refine ⟨String.mk a, String.mk b, rfl, ?_, h2⟩
    apply String.ext
    simp [String.data_append, h1, String.singleton]

/-! ## Endpoint normalisation -/

theorem normalize_eq (h : String) :
    normalize h =
      if hasScheme (if isHubAlias h then "registry-1.docker.io" else h) then
        (if isHubAlias h then "registry-1.docker.io" else h)
      else "https://" ++ (if isHubAlias h then "registry-1.docker.io" else h) := by
  unfold normalize hasScheme isHubAlias
  simp only []
  generalize (if (HasPrefix h "docker.io" || HasPrefix h "index.docker.io") = true then
    "registry-1.docker.io" else h) = r
  cases HasPrefix r "https://" <;> cases HasPrefix r "http://" <;> rfl

theorem isHubAlias_false_of_hasScheme {h : String} (hs : hasScheme h = true) :
    isHubAlias h = false := by
  unfold hasScheme at hs
  unfold isHubAlias
  rw [Bool.or_eq_true] at hs
  rw [Bool.or_eq_false_iff]
  rcases hs with hs | hs
  · exact ⟨hasPrefix_false_of_head "ttps://".data "ocker.io".data hs rfl rfl (by decide),
      hasPrefix_false_of_head "ttps://".data "ndex.docker.io".data hs rfl rfl (by decide)⟩
  · exact ⟨hasPrefix_false_of_head "ttp://".data "ocker.io".data hs rfl rfl (by decide),
      hasPrefix_false_of_head "ttp://".data "ndex.docker.io".data hs rfl rfl (by decide)⟩

theorem normalize_of_hasScheme {h : String} (hs : hasScheme h = true) :
    normalize h = h := by
  rw [normalize_eq, isHubAlias_false_of_hasScheme hs]
  simp [hs]

theorem hasScheme_normalize (h : String) : hasScheme (normalize h) = true := by
  rw [normalize_eq]
  generalize (if isHubAlias h = true then "registry-1.docker.io" else h) = r
  by_cases hr : hasScheme r = true
  · rw [if_pos hr]
    exact hr
  · rw [if_neg hr]
    unfold hasScheme
    rw [hasPrefix_append]
    rfl

theorem hasScheme_false_of_no_slash {h : String} (hno : '/' ∉ h.data) :
    hasScheme h = false := by
  unfold hasScheme
  rw [Bool.or_eq_false_iff]
  constructor
  · cases hp : HasPrefix h "https://" with
    | false => rfl
    | true => exact absurd (mem_of_hasPrefix hp (by decide)) hno
  · cases hp : HasPrefix h "http://" with
    | false => rfl
    | true => exact absurd (mem_of_hasPrefix hp (by decide)) hno

theorem normalize_of_no_slash {h : String} (hno : '/' ∉ h.data) :
    normalize h = "https://" ++ (if isHubAlias h then "registry-1.docker.io" else h) := by
  rw [normalize_eq]
  by_cases ha : isHubAlias h = true
  · simp only [ha, if_true]
    rw [if_neg]
    decide
  · simp only [ha]
    rw [if_neg]
    simp [hasScheme_false_of_no_slash hno]

/-! ## The candidate loop -/

theorem candidateLoop_ok {S K C E M : Type} (w : Collaborators S K C E M)
    (repo ref regURL : String) (c : C) (rest : List C) (pullErrs : List E)
    (log : List (Event C)) (mf : Option M)
    (h : fetchFor w repo ref regURL c = (mf, none)) :
    candidateLoop w repo ref regURL (c :: rest) pullErrs log =
      (Outcome.returned mf none, log ++ attempts w repo ref regURL [c]) := by
  unfold fetchFor at h
  simp [candidateLoop, attempts, h]

theorem candidateLoop_error {S K C E M : Type} (w : Collaborators S K C E M)
    (repo ref regURL : String) (c : C) (rest : List C) (pullErrs : List E)
    (log : List (Event C)) (e : E)
    (h : (fetchFor w repo ref regURL c).2 = some e) :
    candidateLoop w repo ref regURL (c :: rest) pullErrs log =
      candidateLoop w repo ref regURL rest (pullErrs ++ [e])
        (log ++ attempts w repo ref regURL [c]) := by
  unfold fetchFor at h
  cases hp : w.PullManifest repo ref (candidateAuth regURL (w.LazyProvide c)) with
  | mk mf err =>
    rw [hp] at h
    simp only at h
    subst h
    simp [candidateLoop, attempts, hp]

theorem attempts_append {S K C E M : Type} (w : Collaborators S K C E M)
    (repo ref regURL : String) (xs ys : List C) :
    attempts w repo ref regURL (xs ++ ys) =
      attempts w repo ref regURL xs ++ attempts w repo ref regURL ys := by
  simp [attempts]

theorem attempts_cons {S K C E M : Type} (w : Collaborators S K C E M)
    (repo ref regURL : String) (c : C) (cs : List C) :
    attempts w repo ref regURL (c :: cs) =
      attempts w repo ref regURL [c] ++ attempts w repo ref regURL cs := by
  simp [attempts]

theorem candidateLoop_failed_append {S K C E M : Type} (w : Collaborators S K C E M)
    (repo ref regURL : String) (pre : List C) (errs : List E)
    (hall : List.Forall₂ (fun c e => (fetchFor w repo ref regURL c).2 = some e) pre errs)
    (rest : List C) (pullErrs : List E) (log : List (Event C)) :
    candidateLoop w repo ref regURL (pre ++ rest) pullErrs log =
      candidateLoop w repo ref regURL rest (pullErrs ++ errs)
        (log ++ attempts w repo ref regURL pre) := by
  induction hall generalizing pullErrs log with
  | nil => simp [attempts]
  | @cons c e cs es hce _ ih =>
    rw [List.cons_append, candidateLoop_error w repo ref regURL c _ pullErrs log e hce, ih,
      attempts_cons w repo ref regURL c cs]
    simp [List.append_assoc]

theorem candidateLoop_all_failed {S K C E M : Type} (w : Collaborators S K C E M)
    (repo ref regURL : String) (creds : List C) (errs : List E)
    (hall : List.Forall₂ (fun c e => (fetchFor w repo ref regURL c).2 = some e) creds errs)
    (pullErrs : List E) (log : List (Event C)) :
    candidateLoop w repo ref regURL creds pullErrs log =
      (Outcome.returned none (NewAggregate (pullErrs ++ errs)),
        log ++ attempts w repo ref regURL creds) := by
  have h := candidateLoop_failed_append w repo ref regURL creds errs hall [] pullErrs log
  rw [List.append_nil] at h
  rw [h]
  rfl

theorem exists_errors_of_no_success {S K C E M : Type} (w : Collaborators S K C E M)
    (repo ref regURL : String) (pre : List C)
    (h : ∀ c ∈ pre, (fetchFor w repo ref regURL c).2 ≠ none) :
    ∃ errs : List E,
      List.Forall₂ (fun c e => (fetchFor w repo ref regURL c).2 = some e) pre errs := by
  induction pre with
  | nil => exact ⟨[], List.Forall₂.nil⟩
  | cons c cs ih =>
    obtain ⟨es, hes⟩ := ih (fun c1 hc1 => h c1 (List.mem_cons_of_mem _ hc1))
    cases hc : (fetchFor w repo ref regURL c).2 with
    | none => exact absurd hc (h c (List.mem_cons_self _ _))
    | some e => exact ⟨e :: es, List.Forall₂.cons hc hes⟩

theorem fetchCount_attempts {S K C E M : Type} (w : Collaborators S K C E M)
    (repo ref regURL : String) (creds : List C) :
    fetchCount (attempts w repo ref regURL creds) = creds.length := by
  induction creds with
  | nil => rfl
  | cons c cs ih =>
    rw [attempts_cons]
    unfold fetchCount at ih ⊢
    rw [List.filter_append, List.length_append, ih]
    simp [attempts, Nat.add_comm]

theorem provideCount_attempts {S K C E M : Type} (w : Collaborators S K C E M)
    (repo ref regURL : String) (creds : List C) :
    provideCount (attempts w repo ref regURL creds) = creds.length := by
  induction creds with
  | nil => rfl
  | cons c cs ih =>
    rw [attempts_cons]
    unfold provideCount at ih ⊢
    rw [List.filter_append, List.length_append, ih]
    simp [attempts, Nat.add_comm]

theorem candidateLoop_cases {S K C E M : Type} (w : Collaborators S K C E M)
    (repo ref regURL : String) (c : C) (rest : List C) (pullErrs : List E)
    (log : List (Event C)) :
    (∃ mf : Option M, fetchFor w repo ref regURL c = (mf, none) ∧
        candidateLoop w repo ref regURL (c :: rest) pullErrs log =
          (Outcome.returned mf none, log ++ attempts w repo ref regURL [c])) ∨
      ∃ e : E, (fetchFor w repo ref regURL c).2 = some e ∧
        candidateLoop w repo ref regURL (c :: rest) pullErrs log =
          candidateLoop w repo ref regURL rest (pullErrs ++ [e])
            (log ++ attempts w repo ref regURL [c]) := by
  cases hp : fetchFor w repo ref regURL c with
  | mk mf err =>
    cases err with
    | none => exact Or.inl ⟨mf, rfl, candidateLoop_ok w repo ref regURL c rest pullErrs log mf hp⟩
    | some e =>
      exact Or.inr ⟨e, rfl,
        candidateLoop_error w repo ref regURL c rest pullErrs log e (by rw [hp])⟩

theorem mem_candidateLoop_log {S K C E M : Type} (w : Collaborators S K C E M)
    (repo ref regURL : String) (creds : List C) (pullErrs : List E)
    (log : List (Event C)) (ev : Event C)
    (h : ev ∈ (candidateLoop w repo ref regURL creds pullErrs log).2) :
    ev ∈ log ∨ ∃ c ∈ creds, ev = Event.provide c ∨
      ev = Event.fetch repo ref (candidateAuth regURL (w.LazyProvide c)) := by
  induction creds generalizing pullErrs log with
  | nil => exact Or.inl h
  | cons c cs ih =>
    have hstep : ev ∈ log ++ attempts w repo ref regURL [c] →
        ev ∈ log ∨ ∃ c1 ∈ c :: cs, ev = Event.provide c1 ∨
          ev = Event.fetch repo ref (candidateAuth regURL (w.LazyProvide c1)) := by
      intro hm
      rcases List.mem_append.mp hm with h1 | h1
      · exact Or.inl h1
      · refine Or.inr ⟨c, List.mem_cons_self _ _, ?_⟩
        simpa [attempts] using h1
    rcases candidateLoop_cases w repo ref regURL c cs pullErrs log with
      ⟨mf, _, hrun⟩ | ⟨e, _, hrun⟩
    · rw [hrun] at h
      exact hstep h
    · rw [hrun] at h
      rcases ih _ _ h with h1 | ⟨c1, hc1, h1⟩
      · exact hstep h1
      · exact Or.inr ⟨c1, List.mem_cons_of_mem _ hc1, h1⟩

theorem candidateLoop_log {S K C E M : Type} (w : Collaborators S K C E M)
    (repo ref regURL : String) (creds : List C) (pullErrs : List E)
    (log : List (Event C)) :
    ∃ k : Nat, k ≤ creds.length ∧ (creds ≠ [] → 1 ≤ k) ∧
      (candidateLoop w repo ref regURL creds pullErrs log).2 =
        log ++ attempts w repo ref regURL (creds.take k) := by
  induction creds generalizing pullErrs log with
  | nil => exact ⟨0, Nat.le_refl _, fun h => absurd rfl h, by simp [candidateLoop, attempts]⟩
  | cons c cs ih =>
    rcases candidateLoop_cases w repo ref regURL c cs pullErrs log with
      ⟨mf, _, hrun⟩ | ⟨e, _, hrun⟩
    · refine ⟨1, by simp, fun _ => Nat.le_refl _, ?_⟩
      rw [hrun]
      simp
    · obtain ⟨k, hk, _, hlog⟩ := ih (pullErrs ++ [e]) (log ++ attempts w repo ref regURL [c])
      refine ⟨k + 1, by simpa using hk, fun _ => Nat.le_add_left _ _, ?_⟩
      rw [hrun, hlog, List.take_succ_cons, attempts_cons w repo ref regURL c (cs.take k)]
      simp [List.append_assoc]

theorem candidateLoop_outcome {S K C E M : Type} (w : Collaborators S K C E M)
    (repo ref regURL : String) (creds : List C) (pullErrs : List E)
    (log : List (Event C)) :
    (∃ c ∈ creds, ∃ mf : Option M, fetchFor w repo ref regURL c = (mf, none) ∧
        Event.fetch repo ref (candidateAuth regURL (w.LazyProvide c)) ∈
          (candidateLoop w repo ref regURL creds pullErrs log).2 ∧
        (candidateLoop w repo ref regURL creds pullErrs log).1 =
          Outcome.returned mf none) ∨
      ∃ errs : List E, errs.length = creds.length ∧
        (candidateLoop w repo ref regURL creds pullErrs log).1 =
          Outcome.returned none (NewAggregate (pullErrs ++ errs)) := by
  induction creds generalizing pullErrs log with
  | nil => exact Or.inr ⟨[], rfl, by simp [candidateLoop]⟩
  | cons c cs ih =>
    rcases candidateLoop_cases w repo ref regURL c cs pullErrs log with
      ⟨mf, hm, hrun⟩ | ⟨e, _, hrun⟩
    · refine Or.inl ⟨c, List.mem_cons_self _ _, mf, hm, ?_, by rw [hrun]⟩
      rw [hrun]
      simp [attempts]
    · rw [hrun]
      rcases ih (pullErrs ++ [e]) (log ++ attempts w repo ref regURL [c]) with h | h
      · obtain ⟨c1, hc1, mf, hm, hmem, hout⟩ := h
        exact Or.inl ⟨c1, List.mem_cons_of_mem _ hc1, mf, hm, hmem, hout⟩
      · obtain ⟨errs, hlen, hout⟩ := h
        refine Or.inr ⟨e :: errs, by simp [hlen], ?_⟩
        rw [hout]
        simp

theorem candidateAuth_serverAddress (regURL : String) (authConfig : AuthConfig) :
    (candidateAuth regURL authConfig).ServerAddress =
      if authConfig.ServerAddress = "" then regURL else authConfig.ServerAddress := by
  unfold candidateAuth
  by_cases h : authConfig.ServerAddress = "" <;> simp [h]

/-! ## Unfolding `PullImage` -/

theorem pullImage_parse_error {S K C E M : Type} (w : Collaborators S K C E M)
    (img : String) (s : S) (e : E) (h : w.ParseImageName img = Except.error e) :
    PullImage w img s = (Outcome.returned none (some (PullError.plain e)), []) := by
  unfold PullImage
  rw [h]

theorem pullImage_split {S K C E M : Type} (w : Collaborators S K C E M)
    (img : String) (s : S) (repoToPull tag digest host repo : String)
    (hparse : w.ParseImageName img = Except.ok (repoToPull, tag, digest))
    (hsplit : SplitN repoToPull '/' 2 = [host, repo]) :
    PullImage w img s =
      match w.urlParse (normalize host) with
      | some err => (Outcome.returned none (some (PullError.plain err)), [])
      | none => pullWith w s repoToPull repo (effectiveRef tag digest) (normalize host) := by
  unfold PullImage
  rw [hparse]
  simp only [hsplit]
  rfl

theorem pullImage_no_slash {S K C E M : Type} (w : Collaborators S K C E M)
    (img : String) (s : S) (repoToPull tag digest : String)
    (hparse : w.ParseImageName img = Except.ok (repoToPull, tag, digest))
    (hno : '/' ∉ repoToPull.data) :
    PullImage w img s = (Outcome.indexOutOfRange, []) := by
  unfold PullImage
  rw [hparse]
  simp only [splitN_two_of_not_mem hno]
  rfl

theorem pullWith_found {S K C E M : Type} (w : Collaborators S K C E M) (s : S)
    (repoToPull repo ref regURL : String) (keyring : K) (creds : List C)
    (hkr : w.MakeDockerKeyring s = Except.ok keyring)
    (hlook : w.Lookup keyring repoToPull = (creds, true)) :
    pullWith w s repoToPull repo ref regURL =
      candidateLoop w repo ref regURL creds [] [Event.lookup repoToPull] := by
  unfold pullWith
  rw [hkr]
  simp only [hlook]

theorem pullWith_not_found {S K C E M : Type} (w : Collaborators S K C E M) (s : S)
    (repoToPull repo ref regURL : String) (keyring : K) (creds : List C)
    (hkr : w.MakeDockerKeyring s = Except.ok keyring)
    (hlook : w.Lookup keyring repoToPull = (creds, false)) :
    pullWith w s repoToPull repo ref regURL =
      (Outcome.returned (w.PullManifest repo ref (anonymousAuth regURL)).1
          ((w.PullManifest repo ref (anonymousAuth regURL)).2.map PullError.plain),
       [Event.lookup repoToPull, Event.fetch repo ref (anonymousAuth regURL)]) := by
  unfold pullWith anonymousAuth
  rw [hkr]
  simp only [hlook]

theorem pullWith_returned {S K C E M : Type} (w : Collaborators S K C E M) (s : S)
    (repoToPull repo ref regURL : String) :
    ∃ (mf : Option M) (err : Option (PullError E)),
      (pullWith w s repoToPull repo ref regURL).1 = Outcome.returned mf err := by
  cases hkr : w.MakeDockerKeyring s with
  | error e =>
    unfold pullWith
    rw [hkr]
    exact ⟨_, _, rfl⟩
  | ok keyring =>
    cases hl : w.Lookup keyring repoToPull with
    | mk creds found =>
      cases found with
      | false =>
        rw [pullWith_not_found w s repoToPull repo ref regURL keyring creds hkr hl]
        exact ⟨_, _, rfl⟩
      | true =>
        rw [pullWith_found w s repoToPull repo ref regURL keyring creds hkr hl]
        rcases candidateLoop_outcome w repo ref regURL creds []
          [Event.lookup repoToPull] with ⟨_, _, mf, _, _, h⟩ | ⟨errs, _, h⟩
        · exact ⟨_, _, h⟩
        · exact ⟨_, _, h⟩

theorem mem_pullWith_log {S K C E M : Type} (w : Collaborators S K C E M) (s : S)
    (repoToPull repo ref regURL : String) (r f : String) (a : AuthConfig)
    (h : Event.fetch r f a ∈ (pullWith w s repoToPull repo ref regURL).2) :
    r = repo ∧ f = ref ∧
      (a = anonymousAuth regURL ∨ ∃ c : C, a = candidateAuth regURL (w.LazyProvide c)) := by
  cases hkr : w.MakeDockerKeyring s with
  | error e =>
    unfold pullWith at h
    rw [hkr] at h
    simp at h
  | ok keyring =>
    cases hl : w.Lookup keyring repoToPull with
    | mk creds found =>
      cases found with
      | false =>
        rw [pullWith_not_found w s repoToPull repo ref regURL keyring creds hkr hl] at h
        simp at h
        obtain ⟨rfl, rfl, rfl⟩ := h
        exact ⟨rfl, rfl, Or.inl rfl⟩
      | true =>
        rw [pullWith_found w s repoToPull repo ref regURL keyring creds hkr hl] at h
        rcases mem_candidateLoop_log w repo ref regURL creds [] _ _ h with h1 | ⟨c, _, h1⟩
        · simp at h1
        · rcases h1 with h1 | h1
          · cases h1
          · cases h1
            exact ⟨rfl, rfl, Or.inr ⟨c, rfl⟩⟩

theorem hasPrefix_https_not_http (x : String) :
    HasPrefix ("https://" ++ x) "http://" = false := by
  cases hp : HasPrefix ("https://" ++ x) "http://" with
  | false => rfl
  | true =>
    rw [hasPrefix_iff, String.data_append] at hp
    obtain ⟨t, ht⟩ := hp
    have h5 := congrArg (fun l => l[4]?) ht
    simp at h5

theorem mem_pullImage_log {S K C E M : Type} (w : Collaborators S K C E M)
    (img : String) (s : S) (repoToPull tag digest host repo : String)
    (hparse : w.ParseImageName img = Except.ok (repoToPull, tag, digest))
    (hsplit : SplitN repoToPull '/' 2 = [host, repo])
    (r f : String) (a : AuthConfig)
    (h : Event.fetch r f a ∈ (PullImage w img s).2) :
    r = repo ∧ f = effectiveRef tag digest ∧
      (a = anonymousAuth (normalize host) ∨
        ∃ c : C, a = candidateAuth (normalize host) (w.LazyProvide c)) := by
  rw [pullImage_split w img s repoToPull tag digest host repo hparse hsplit] at h
  cases hurl : w.urlParse (normalize host) with
  | some e =>
    rw [hurl] at h
    simp at h
  | none =>
    rw [hurl] at h
    exact mem_pullWith_log w s repoToPull repo _ _ r f a h

theorem normalize_of_isHubAlias {h : String} (ha : isHubAlias h = true) :
    normalize h = "https://registry-1.docker.io" := by
  rw [normalize_eq, ha]
  rfl

/-! ## What the reference parser returns -/

theorem accepts_not_mem {σ : Type} (step : σ → Char → Option σ) (final : σ → Bool)
    (x : Char) (hx : ∀ q, step q x = none) (q : σ) (l : List Char)
    (h : accepts step final q l = true) : x ∉ l := by
  induction l generalizing q with
  | nil => simp
  | cons c cs ih =>
    unfold accepts at h
    intro hm
    rcases List.mem_cons.mp hm with h1 | h1
    · subst h1
      rw [hx q] at h
      cases h
    · cases hs : step q c with
      | none =>
        rw [hs] at h
        cases h
      | some q1 =>
        rw [hs] at h
        exact ih q1 h h1

theorem accepts_ne_nil {σ : Type} (step : σ → Char → Option σ) (final : σ → Bool)
    (q : σ) (hq : final q = false) (l : List Char)
    (h : accepts step final q l = true) : l ≠ [] := by
  intro hl
  subst hl
  unfold accepts at h
  rw [hq] at h
  cases h

theorem isDigest_no_slash {l : List Char} (h : isDigest l = true) : '/' ∉ l := by
  unfold isDigest at h
  refine accepts_not_mem digestStep _ '/' ?_ _ l h
  intro q
  cases q <;> rfl

theorem isNameComponent_ne_nil {l : List Char} (h : isNameComponent l = true) : l ≠ [] :=
  accepts_ne_nil componentStep _ .need rfl l h

theorem isDomain_ne_nil {l : List Char} (h : isDomain l = true) : l ≠ [] :=
  accepts_ne_nil domainStep _ .need rfl l h

theorem splitAll_head_ne_nil {sep : Char} {l d : List Char} {rest : List (List Char)}
    (h : splitAll sep l = d :: rest) (hd : d ≠ []) :
    ∃ c cs, l = c :: cs ∧ c ≠ sep := by
  cases l with
  | nil =>
    simp only [splitAll, List.cons.injEq] at h
    exact absurd h.1.symm hd
  | cons c cs =>
    refine ⟨c, cs, rfl, ?_⟩
    intro hc
    subst hc
    simp only [splitAll, if_true, List.cons.injEq] at h
    exact absurd h.1.symm hd

theorem isName_head {l : List Char} (h : isName l = true) :
    ∃ c cs, l = c :: cs ∧ c ≠ '/' := by
  unfold isName at h
  cases hs : splitAll '/' l with
  | nil =>
    rw [hs] at h
    cases h
  | cons d rest =>
    rw [hs] at h
    simp only [Bool.or_eq_true, Bool.and_eq_true, List.all_cons] at h
    apply splitAll_head_ne_nil hs
    rcases h with ⟨⟨_, hd⟩, _⟩ | ⟨hd, _⟩
    · exact isDomain_ne_nil hd
    · exact isNameComponent_ne_nil hd

theorem splitTag_mem {l : List Char} (h : '/' ∈ l) : '/' ∈ (splitTag l).1 := by
  induction l with
  | nil => simp at h
  | cons c cs ih =>
    unfold splitTag
    by_cases hc : c = ':' ∧ '/' ∉ cs
    · rcases List.mem_cons.mp h with h1 | h1
      · rw [← h1] at hc
        exact absurd hc.1 (by decide)
      · exact absurd h1 hc.2
    · rw [if_neg hc]
      rcases List.mem_cons.mp h with h1 | h1
      · rw [h1]
        exact List.mem_cons_self _ _
      · exact List.mem_cons_of_mem _ (ih h1)

theorem parse_name {digestParse : String → Bool} {s n t d : String}
    (h : Parse digestParse s = some (n, t, d)) (hs : '/' ∈ s.data) :
    '/' ∈ n.data ∧ ∃ c cs, n.data = c :: cs ∧ c ≠ '/' := by
  unfold Parse at h
  simp only [] at h
  split at h
  · rename_i hcond
    simp only [Bool.and_eq_true] at hcond
    obtain ⟨⟨⟨hname, _⟩, hdig⟩, _⟩ := hcond
    simp only [Option.some.injEq, Prod.mk.injEq] at h
    obtain ⟨hn, _, _⟩ := h
    subst hn
    refine ⟨?_, isName_head hname⟩
    apply splitTag_mem
    cases hc : cut '@' s.data with
    | none => exact hs
    | some ab =>
      obtain ⟨a, b⟩ := ab
      rw [hc] at hdig
      simp only [Bool.and_eq_true] at hdig
      have hb := isDigest_no_slash hdig.1
      have hsab := (cut_some hc).1
      rw [hsab] at hs
      rcases List.mem_append.mp hs with h1 | h1
      · exact h1
      · rcases List.mem_cons.mp h1 with h2 | h2
        · exact absurd h2 (by decide)
        · exact absurd h2 hb
  · cases h

theorem parseImageName_name {digestParse : String → Bool} {image n t d : String}
    (h : ParseImageName digestParse image = some (n, t, d)) :
    '/' ∈ n.data ∧ ∃ c cs, n.data = c :: cs ∧ c ≠ '/' := by
  unfold ParseImageName at h
  cases hp : ParseNormalizedNamed digestParse image with
  | none =>
    rw [hp] at h
    cases h
  | some r =>
    obtain ⟨n1, t1, d1⟩ := r
    rw [hp] at h
    simp only [Option.some.injEq, Prod.mk.injEq] at h
    obtain ⟨hn, _, _⟩ := h
    subst hn
    unfold ParseNormalizedNamed at hp
    simp only [] at hp
    split at hp
    · cases hp
    · split at hp
      · cases hp
      · apply parse_name hp
        rw [String.data_append, String.data_append]
        exact List.mem_append_left _ (List.mem_append_right _ (by decide))

theorem splitN_of_name {n : String} (hs : '/' ∈ n.data)
    (hh : ∃ c cs, n.data = c :: cs ∧ c ≠ '/') :
    ∃ host repo : String, SplitN n '/' 2 = [host, repo] ∧ host ≠ "" := by
  obtain ⟨host, repo, hsplit, heq, _⟩ := splitN_two_of_mem hs
  refine ⟨host, repo, hsplit, ?_⟩
  intro hhost
  subst hhost
  obtain ⟨c, cs, hn, hc⟩ := hh
  rw [heq] at hn
  simp only [String.data_append] at hn
  have : c = '/' := by
    have h0 := congrArg List.head? hn
    simpa [String.singleton] using h0.symm
  exact hc this

theorem parseImageName_onlyhost (digestParse : String → Bool) :
    ParseImageName digestParse "onlyhost" =
      some ("docker.io/library/onlyhost", "latest", "") := by
  rfl

theorem linkedWithParser_demo : linkedWithParser demo digestValidate := by
  intro image
  cases h : ParseImageName digestValidate image with
  | none => exact ⟨"invalid reference format", by simp [demo, h]⟩
  | some r => simp [demo, h]

/-! ## The claims -/

/-- C1: when the lookup reports found and `c` is the first candidate (index
`i`) whose `PullManifest` call succeeds, `PullImage` returns the manifest of
`c` with a nil error, after the lookup it materialises and fetches exactly
the candidates `0..i` in order, and makes `i + 1` fetch calls and `i + 1`
materialisations in total. -/
theorem pullImage_returns_first_success {S K C E M : Type}
    (w : Collaborators S K C E M) (img : String) (s : S)
    (repoToPull tag digest host repo : String) (keyring : K) (creds : List C)
    (i : Nat) (c : C) (mf : Option M)
    (hparse : w.ParseImageName img = Except.ok (repoToPull, tag, digest))
    (hsplit : SplitN repoToPull '/' 2 = [host, repo])
    (hurl : w.urlParse (normalize host) = none)
    (hkr : w.MakeDockerKeyring s = Except.ok keyring)
    (hlook : w.Lookup keyring repoToPull = (creds, true))
    (hci : creds[i]? = some c)
    (hok : fetchFor w repo (effectiveRef tag digest) (normalize host) c = (mf, none))
    (hleast : ∀ (k : Nat) (d : C), k < i → creds[k]? = some d →
      (fetchFor w repo (effectiveRef tag digest) (normalize host) d).2 ≠ none) :
    PullImage w img s =
        (Outcome.returned mf none,
          Event.lookup repoToPull ::
            attempts w repo (effectiveRef tag digest) (normalize host) (creds.take (i + 1))) ∧
      fetchCount (PullImage w img s).2 = i + 1 ∧
      provideCount (PullImage w img s).2 = i + 1 := by
  have hi : i < creds.length := by
    by_contra hge
    rw [List.getElem?_eq_none (Nat.le_of_not_lt hge)] at hci
    cases hci
  have htake : creds.take (i + 1) = creds.take i ++ [c] := by
    rw [List.take_succ, hci]
    rfl
  have hcreds : creds = creds.take i ++ c :: creds.drop (i + 1) := by
    conv_lhs => rw [← List.take_append_drop (i + 1) creds, htake]
    simp
  have hpre : ∀ d ∈ creds.take i,
      (fetchFor w repo (effectiveRef tag digest) (normalize host) d).2 ≠ none := by
    intro d hd
    obtain ⟨k, hk, hkd⟩ := List.getElem_of_mem hd
    have hk1 : k < i := by
      rw [List.length_take] at hk
      omega
    rw [List.getElem_take] at hkd
    have hk2 : k < creds.length := by omega
    exact hleast k d hk1 (by rw [List.getElem?_eq_getElem hk2, hkd])
  obtain ⟨errs, herrs⟩ := exists_errors_of_no_success w repo _ _ _ hpre
  have hrun : PullImage w img s =
      (Outcome.returned mf none,
        Event.lookup repoToPull ::
          attempts w repo (effectiveRef tag digest) (normalize host) (creds.take (i + 1))) := by
    rw [pullImage_split w img s repoToPull tag digest host repo hparse hsplit, hurl]
    simp only []
    rw [pullWith_found w s repoToPull repo _ _ keyring creds hkr hlook]
    conv_lhs => rw [hcreds]
    rw [candidateLoop_failed_append w repo _ _ _ errs herrs,
      candidateLoop_ok w repo _ _ c _ _ _ mf hok, htake, attempts_append]
    simp
  refine ⟨hrun, ?_, ?_⟩
  · rw [hrun]
    have h := fetchCount_attempts w repo (effectiveRef tag digest) (normalize host)
      (creds.take (i + 1))
    rw [List.length_take, Nat.min_eq_left (by omega)] at h
    simpa [fetchCount] using h
  · rw [hrun]
    have h := provideCount_attempts w repo (effectiveRef tag digest) (normalize host)
      (creds.take (i + 1))
    rw [List.length_take, Nat.min_eq_left (by omega)] at h
    simpa [provideCount] using h

/-- Witness for C1: two candidates are tried, the first is refused, the
second one's manifest is returned and the third is never touched. -/
theorem pullImage_returns_first_success_witness :
    PullImage demo "r.example/team/app:1" () =
        (Outcome.returned (some "manifest for carol") none,
          Event.lookup "r.example/team/app" ::
            attempts demo "team/app" (effectiveRef "1" "") (normalize "r.example")
              (([0, 1, 2] : List Nat).take (1 + 1))) ∧
      fetchCount (PullImage demo "r.example/team/app:1" ()).2 = 1 + 1 ∧
      provideCount (PullImage demo "r.example/team/app:1" ()).2 = 1 + 1 :=
  pullImage_returns_first_success demo "r.example/team/app:1" ()
    "r.example/team/app" "1" "" "r.example" "team/app" () [0, 1, 2] 1 1
    (some "manifest for carol") rfl (by decide) (by decide) rfl (by decide)
    (by decide) (by decide)
    (by
      intro k d hk hd
      have hk0 : k = 0 := by omega
      subst hk0
      have hd0 : d = 0 := by
        simp at hd
        exact hd.symm
      subst hd0
      decide)

/-- C2: when the lookup reports found with at least one candidate and the
`PullManifest` call fails for every candidate, `PullImage` returns no
manifest and the aggregate error whose underlying errors are exactly the
per-candidate errors in candidate order, as many as there are candidates;
every candidate was materialised and fetched once, in order. -/
theorem pullImage_aggregates_all_failures {S K C E M : Type}
    (w : Collaborators S K C E M) (img : String) (s : S)
    (repoToPull tag digest host repo : String) (keyring : K) (creds : List C)
    (errs : List E)
    (hparse : w.ParseImageName img = Except.ok (repoToPull, tag, digest))
    (hsplit : SplitN repoToPull '/' 2 = [host, repo])
    (hurl : w.urlParse (normalize host) = none)
    (hkr : w.MakeDockerKeyring s = Except.ok keyring)
    (hlook : w.Lookup keyring repoToPull = (creds, true))
    (hne : 1 ≤ creds.length)
    (hall : List.Forall₂
      (fun c e =>
        (fetchFor w repo (effectiveRef tag digest) (normalize host) c).2 = some e)
      creds errs) :
    PullImage w img s =
        (Outcome.returned none (some (PullError.aggregate errs)),
          Event.lookup repoToPull ::
            attempts w repo (effectiveRef tag digest) (normalize host) creds) ∧
      errs.length = creds.length ∧
      fetchCount (PullImage w img s).2 = creds.length := by
  have hlen : errs.length = creds.length := hall.length_eq.symm
  have hagg : NewAggregate errs = some (PullError.aggregate errs) := by
    cases errs with
    | nil =>
      rw [List.length_nil] at hlen
      omega
    | cons e es => rfl
  have hrun : PullImage w img s =
      (Outcome.returned none (some (PullError.aggregate errs)),
        Event.lookup repoToPull ::
          attempts w repo (effectiveRef tag digest) (normalize host) creds) := by
    rw [pullImage_split w img s repoToPull tag digest host repo hparse hsplit, hurl]
    simp only []
    rw [pullWith_found w s repoToPull repo _ _ keyring creds hkr hlook,
      candidateLoop_all_failed w repo _ _ creds errs hall, List.nil_append, hagg]
    rfl
  refine ⟨hrun, hlen, ?_⟩
  rw [hrun]
  have h := fetchCount_attempts w repo (effectiveRef tag digest) (normalize host) creds
  simpa [fetchCount] using h

/-- Witness for C2: both candidates of `"r.example/team/locked"` are
refused and both refusals are reported, in order. -/
theorem pullImage_aggregates_all_failures_witness :
    PullImage demo "r.example/team/locked:1" () =
        (Outcome.returned none
            (some (PullError.aggregate ["denied: alice", "denied: dave"])),
          Event.lookup "r.example/team/locked" ::
            attempts demo "team/locked" (effectiveRef "1" "") (normalize "r.example")
              [0, 2]) ∧
      (["denied: alice", "denied: dave"] : List String).length =
        ([0, 2] : List Nat).length ∧
      fetchCount (PullImage demo "r.example/team/locked:1" ()).2 =
        ([0, 2] : List Nat).length :=
  pullImage_aggregates_all_failures demo "r.example/team/locked:1" ()
    "r.example/team/locked" "1" "" "r.example" "team/locked" () [0, 2]
    ["denied: alice", "denied: dave"] rfl (by decide) (by decide) rfl (by decide)
    (by decide)
    (List.Forall₂.cons (by decide) (List.Forall₂.cons (by decide) List.Forall₂.nil))

/-- C3: when the lookup reports not found, `PullImage` makes exactly one
`PullManifest` call, with empty `Username`, `Password` and `Auth` and with
the normalised endpoint as `ServerAddress`; it materialises no credential and
returns the result of that call unchanged. -/
theorem pullImage_anonymous_once {S K C E M : Type}
    (w : Collaborators S K C E M) (img : String) (s : S)
    (repoToPull tag digest host repo : String) (keyring : K) (creds : List C)
    (hparse : w.ParseImageName img = Except.ok (repoToPull, tag, digest))
    (hsplit : SplitN repoToPull '/' 2 = [host, repo])
    (hurl : w.urlParse (normalize host) = none)
    (hkr : w.MakeDockerKeyring s = Except.ok keyring)
    (hlook : w.Lookup keyring repoToPull = (creds, false)) :
    PullImage w img s =
        (Outcome.returned
            (w.PullManifest repo (effectiveRef tag digest)
              { Username := "", Password := "", Auth := "",
                ServerAddress := normalize host }).1
            ((w.PullManifest repo (effectiveRef tag digest)
              { Username := "", Password := "", Auth := "",
                ServerAddress := normalize host }).2.map PullError.plain),
         [Event.lookup repoToPull,
          Event.fetch repo (effectiveRef tag digest)
            { Username := "", Password := "", Auth := "",
              ServerAddress := normalize host }]) ∧
      fetchCount (PullImage w img s).2 = 1 ∧
      provideCount (PullImage w img s).2 = 0 := by
  have hrun := pullImage_split w img s repoToPull tag digest host repo hparse hsplit
  rw [hurl] at hrun
  simp only [] at hrun
  rw [pullWith_not_found w s repoToPull repo _ _ keyring creds hkr hlook] at hrun
  refine ⟨hrun, ?_, ?_⟩
  · rw [hrun]
    rfl
  · rw [hrun]
    rfl

/-- Witness for C3: the hub reference has no credentials in `demo` and is
fetched once, anonymously. -/
theorem pullImage_anonymous_once_witness :
    PullImage demo "docker.io/appscode/voyager:6.0.0" () =
        (Outcome.returned
            (demo.PullManifest "appscode/voyager" (effectiveRef "6.0.0" "")
              { Username := "", Password := "", Auth := "",
                ServerAddress := normalize "docker.io" }).1
            ((demo.PullManifest "appscode/voyager" (effectiveRef "6.0.0" "")
              { Username := "", Password := "", Auth := "",
                ServerAddress := normalize "docker.io" }).2.map PullError.plain),
         [Event.lookup "docker.io/appscode/voyager",
          Event.fetch "appscode/voyager" (effectiveRef "6.0.0" "")
            { Username := "", Password := "", Auth := "",
              ServerAddress := normalize "docker.io" }]) ∧
      fetchCount (PullImage demo "docker.io/appscode/voyager:6.0.0" ()).2 = 1 ∧
      provideCount (PullImage demo "docker.io/appscode/voyager:6.0.0" ()).2 = 0 :=
  pullImage_anonymous_once demo "docker.io/appscode/voyager:6.0.0" ()
    "docker.io/appscode/voyager" "6.0.0" "" "docker.io" "appscode/voyager" () []
    rfl (by decide) (by decide) rfl (by decide)

/-- C4: if `ParseImageName` fails, or the normalised endpoint is rejected
by `url.Parse`, `PullImage` returns that error with no manifest and has made
no keyring lookup, no credential materialisation and no `PullManifest`
call. -/
theorem pullImage_structural_failure {S K C E M : Type}
    (w : Collaborators S K C E M) (img : String) (s : S) (e : E)
    (h : w.ParseImageName img = Except.error e ∨
      ∃ repoToPull tag digest host repo,
        w.ParseImageName img = Except.ok (repoToPull, tag, digest) ∧
        SplitN repoToPull '/' 2 = [host, repo] ∧
        w.urlParse (normalize host) = some e) :
    PullImage w img s = (Outcome.returned none (some (PullError.plain e)), []) ∧
      (PullImage w img s).2 = ([] : List (Event C)) := by
  have hrun : PullImage w img s =
      (Outcome.returned none (some (PullError.plain e)), []) := by
    rcases h with h | ⟨repoToPull, tag, digest, host, repo, hparse, hsplit, hurl⟩
    · exact pullImage_parse_error w img s e h
    · rw [pullImage_split w img s repoToPull tag digest host repo hparse hsplit, hurl]
  exact ⟨hrun, by rw [hrun]⟩

/-- Witness for C4: an unparsable reference in `demo`, and in `strictPorts`
a reference whose endpoint is rejected by the URL check. -/
theorem pullImage_structural_failure_witness :
    (PullImage demo "UPPER:case" () =
        (Outcome.returned none (some (PullError.plain "invalid reference format")), []) ∧
      (PullImage demo "UPPER:case" ()).2 = ([] : List (Event Nat))) ∧
    (PullImage strictPorts "r.example:123456/team/app:1" () =
        (Outcome.returned none (some (PullError.plain "invalid port")), []) ∧
      (PullImage strictPorts "r.example:123456/team/app:1" ()).2 =
        ([] : List (Event Nat))) :=
  ⟨pullImage_structural_failure demo "UPPER:case" () "invalid reference format"
      (Or.inl rfl),
    pullImage_structural_failure strictPorts "r.example:123456/team/app:1" ()
      "invalid port"
      (Or.inr ⟨"r.example:123456/team/app", "1", "", "r.example:123456", "team/app",
        rfl, by decide, by decide⟩)⟩

/-- C5 (counterexample): the raw reference `"onlyhost"` has no `'/'`, yet it
is not refused: the parser returns the name `"docker.io/library/onlyhost"`
with the tag `"latest"`, and `PullImage` looks up the keyring and makes one
anonymous fetch of `"library/onlyhost"` at `"https://registry-1.docker.io"`;
the error it returns is the answer of the registry.  The bare name `"nginx"`
is pulled the same way and its manifest is returned. -/
theorem pullImage_bare_reference_counterexample :
    '/' ∉ "onlyhost".data ∧
      demo.ParseImageName "onlyhost" =
        Except.ok ("docker.io/library/onlyhost", "latest", "") ∧
      PullImage demo "onlyhost" () =
        (Outcome.returned none (some (PullError.plain "manifest unknown")),
          [Event.lookup "docker.io/library/onlyhost",
           Event.fetch "library/onlyhost" "latest"
             { Username := "", Password := "", Auth := "",
               ServerAddress := "https://registry-1.docker.io" }]) ∧
      fetchCount (PullImage demo "onlyhost" ()).2 = 1 ∧
      PullImage demo "nginx" () =
        (Outcome.returned (some "manifest of library/nginx") none,
          [Event.lookup "docker.io/library/nginx",
           Event.fetch "library/nginx" "latest"
             { Username := "", Password := "", Auth := "",
               ServerAddress := "https://registry-1.docker.io" }]) := by
  refine ⟨by decide, rfl, by decide, by decide, by decide⟩

/-- C5 (amended): in a world linked with the reference parser, `PullImage`
never stops with an index out of range, because every name the parser
returns splits at its first `'/'` into a host that is not empty and a
repository; a reference the parser refuses is returned as that error with no
lookup, no materialisation and no fetch.  A raw reference without `'/'` is not
refused: `"onlyhost"` is parsed to `"docker.io/library/onlyhost"` with tag
`"latest"` and, when the endpoint is accepted, the keyring is built and it
has no credentials for that name, fetched once, anonymously, as
`"library/onlyhost"` at `"https://registry-1.docker.io"`, the answer of that
call being the result. -/
theorem pullImage_reference_split {S K C E M : Type}
    (w : Collaborators S K C E M) (digestParse : String → Bool) (s : S)
    (hw : linkedWithParser w digestParse) :
    (∀ img : String, (PullImage w img s).1 ≠ Outcome.indexOutOfRange) ∧
      (∀ img repoToPull tag digest,
        w.ParseImageName img = Except.ok (repoToPull, tag, digest) →
          ∃ host repo : String, SplitN repoToPull '/' 2 = [host, repo] ∧ host ≠ "") ∧
      (∀ img : String, ParseImageName digestParse img = none →
        ∃ e : E, PullImage w img s =
          (Outcome.returned none (some (PullError.plain e)), [])) ∧
      w.ParseImageName "onlyhost" =
        Except.ok ("docker.io/library/onlyhost", "latest", "") ∧
      ∀ (keyring : K) (creds : List C),
        w.urlParse "https://registry-1.docker.io" = none →
        w.MakeDockerKeyring s = Except.ok keyring →
        w.Lookup keyring "docker.io/library/onlyhost" = (creds, false) →
          PullImage w "onlyhost" s =
            (Outcome.returned
                (w.PullManifest "library/onlyhost" "latest"
                  { Username := "", Password := "", Auth := "",
                    ServerAddress := "https://registry-1.docker.io" }).1
                ((w.PullManifest "library/onlyhost" "latest"
                  { Username := "", Password := "", Auth := "",
                    ServerAddress := "https://registry-1.docker.io" }).2.map
                      PullError.plain),
              [Event.lookup "docker.io/library/onlyhost",
               Event.fetch "library/onlyhost" "latest"
                 { Username := "", Password := "", Auth := "",
                   ServerAddress := "https://registry-1.docker.io" }]) ∧
            fetchCount (PullImage w "onlyhost" s).2 = 1 := by
  have hsplits : ∀ img repoToPull tag digest,
      w.ParseImageName img = Except.ok (repoToPull, tag, digest) →
        ∃ host repo : String, SplitN repoToPull '/' 2 = [host, repo] ∧ host ≠ "" := by
    intro img repoToPull tag digest hparse
    have hl := hw img
    cases hm : ParseImageName digestParse img with
    | none =>
      rw [hm] at hl
      obtain ⟨e, he⟩ := hl
      rw [he] at hparse
      cases hparse
    | some r =>
      rw [hm] at hl
      simp only [] at hl
      rw [hl] at hparse
      cases hparse
      obtain ⟨h1, h2⟩ := parseImageName_name hm
      exact splitN_of_name h1 h2
  have honly : w.ParseImageName "onlyhost" =
      Except.ok ("docker.io/library/onlyhost", "latest", "") := by
    have hl := hw "onlyhost"
    rw [parseImageName_onlyhost digestParse] at hl
    exact hl
  refine ⟨?_, hsplits, ?_, honly, ?_⟩
  · intro img
    cases hparse : w.ParseImageName img with
    | error e =>
      rw [pullImage_parse_error w img s e hparse]
      intro h
      cases h
    | ok r =>
      obtain ⟨repoToPull, tag, digest⟩ := r
      obtain ⟨host, repo, hsplit, _⟩ := hsplits img repoToPull tag digest hparse
      rw [pullImage_split w img s repoToPull tag digest host repo hparse hsplit]
      cases w.urlParse (normalize host) with
      | some e =>
        intro h
        cases h
      | none =>
        obtain ⟨mf, err, hret⟩ :=
          pullWith_returned w s repoToPull repo (effectiveRef tag digest) (normalize host)
        simp only []
        rw [hret]
        intro h
        cases h
  · intro img hm
    have hl := hw img
    rw [hm] at hl
    obtain ⟨e, he⟩ := hl
    exact ⟨e, pullImage_parse_error w img s e he⟩
  · intro keyring creds hurl hkr hlook
    have hn : normalize "docker.io" = "https://registry-1.docker.io" := by decide
    have hr : effectiveRef "latest" "" = "latest" := by decide
    have hrun := pullImage_anonymous_once w "onlyhost" s "docker.io/library/onlyhost"
      "latest" "" "docker.io" "library/onlyhost" keyring creds honly (by decide)
      (by
        rw [hn]
        exact hurl)
      hkr hlook
    rw [hn, hr] at hrun
    exact ⟨hrun.1, hrun.2.1⟩

/-- Witness for C5 (amended): the world `demo`, which is linked with the
parser and has no credentials for the hub. -/
theorem pullImage_reference_split_witness :
    (∀ img : String, (PullImage demo img ()).1 ≠ Outcome.indexOutOfRange) ∧
      (∀ img repoToPull tag digest,
        demo.ParseImageName img = Except.ok (repoToPull, tag, digest) →
          ∃ host repo : String, SplitN repoToPull '/' 2 = [host, repo] ∧ host ≠ "") ∧
      (∀ img : String, ParseImageName digestValidate img = none →
        ∃ e : String, PullImage demo img () =
          (Outcome.returned none (some (PullError.plain e)), [])) ∧
      demo.ParseImageName "onlyhost" =
        Except.ok ("docker.io/library/onlyhost", "latest", "") ∧
      PullImage demo "onlyhost" () =
        (Outcome.returned
            (demo.PullManifest "library/onlyhost" "latest"
              { Username := "", Password := "", Auth := "",
                ServerAddress := "https://registry-1.docker.io" }).1
            ((demo.PullManifest "library/onlyhost" "latest"
              { Username := "", Password := "", Auth := "",
                ServerAddress := "https://registry-1.docker.io" }).2.map PullError.plain),
          [Event.lookup "docker.io/library/onlyhost",
           Event.fetch "library/onlyhost" "latest"
             { Username := "", Password := "", Auth := "",
               ServerAddress := "https://registry-1.docker.io" }]) ∧
      fetchCount (PullImage demo "onlyhost" ()).2 = 1 :=
  (fun h => ⟨h.1, h.2.1, h.2.2.1, h.2.2.2.1,
      h.2.2.2.2 () [] (by decide) rfl (by decide)⟩)
    (pullImage_reference_split demo digestValidate () linkedWithParser_demo)

/-- C6 (counterexample): with a keyring that reports found and offers no
candidate, `PullImage` returns a nil manifest together with a nil error. -/
theorem pullImage_one_outcome_counterexample :
    emptyFound.Lookup () "r.example/team/app" = ([], true) ∧
      PullImage emptyFound "r.example/team/app:1" () =
        (Outcome.returned none none, [Event.lookup "r.example/team/app"]) := by
  exact ⟨rfl, by decide⟩

/-- C6 (amended): take a call of `PullImage` that returns.  If the keyring
lookup it made reported found with an empty candidate list, it returns a nil
manifest together with a nil error, having materialised and fetched nothing.
Otherwise, if every `PullManifest` call it made answered with exactly one of
a manifest and an error, it returns exactly one of the two: a manifest with a
nil error, or an error with no manifest. -/
theorem pullImage_one_outcome {S K C E M : Type}
    (w : Collaborators S K C E M) (img : String) (s : S)
    (mf : Option M) (err : Option (PullError E)) (log : List (Event C))
    (h : PullImage w img s = (Outcome.returned mf err, log)) :
    ((∃ (keyring : K) (repoToPull : String),
          Event.lookup repoToPull ∈ log ∧
          w.MakeDockerKeyring s = Except.ok keyring ∧
          w.Lookup keyring repoToPull = ([], true)) →
        mf = none ∧ err = none ∧ fetchCount log = 0 ∧ provideCount log = 0) ∧
      ((¬ ∃ (keyring : K) (repoToPull : String),
          Event.lookup repoToPull ∈ log ∧
          w.MakeDockerKeyring s = Except.ok keyring ∧
          w.Lookup keyring repoToPull = ([], true)) →
        (∀ (repo ref : String) (auth : AuthConfig),
          Event.fetch repo ref auth ∈ log → exactlyOne (w.PullManifest repo ref auth)) →
        (mf ≠ none ∧ err = none) ∨ (mf = none ∧ err ≠ none)) := by
  have hempty : ∀ (e : E), (Outcome.returned mf err, log) =
      ((Outcome.returned none (some (PullError.plain e)), []) :
        Outcome E M × List (Event C)) →
      ((∃ (keyring : K) (repoToPull : String),
          Event.lookup repoToPull ∈ log ∧
          w.MakeDockerKeyring s = Except.ok keyring ∧
          w.Lookup keyring repoToPull = ([], true)) →
        mf = none ∧ err = none ∧ fetchCount log = 0 ∧ provideCount log = 0) ∧
      ((¬ ∃ (keyring : K) (repoToPull : String),
          Event.lookup repoToPull ∈ log ∧
          w.MakeDockerKeyring s = Except.ok keyring ∧
          w.Lookup keyring repoToPull = ([], true)) →
        (∀ (repo ref : String) (auth : AuthConfig),
          Event.fetch repo ref auth ∈ log → exactlyOne (w.PullManifest repo ref auth)) →
        (mf ≠ none ∧ err = none) ∨ (mf = none ∧ err ≠ none)) := by
    intro e heq
    cases heq
    refine ⟨?_, fun _ _ => Or.inr ⟨rfl, by simp⟩⟩
    rintro ⟨_, _, hmem, _⟩
    simp at hmem
  cases hparse : w.ParseImageName img with
  | error e =>
    rw [pullImage_parse_error w img s e hparse] at h
    exact hempty e h.symm
  | ok res =>
    obtain ⟨repoToPull, tag, digest⟩ := res
    by_cases hslash : '/' ∈ repoToPull.data
    · obtain ⟨host, repo, hsplit, _, _⟩ := splitN_two_of_mem hslash
      rw [pullImage_split w img s repoToPull tag digest host repo hparse hsplit] at h
      cases hurl : w.urlParse (normalize host) with
      | some e =>
        rw [hurl] at h
        exact hempty e h.symm
      | none =>
        rw [hurl] at h
        simp only [] at h
        obtain ⟨made, hkr⟩ : ∃ made, w.MakeDockerKeyring s = made := ⟨_, rfl⟩
        cases made with
        | error e =>
          unfold pullWith at h
          rw [hkr] at h
          exact hempty e h.symm
        | ok keyring =>
          cases hl : w.Lookup keyring repoToPull with
          | mk creds found =>
            cases found with
            | false =>
              rw [pullWith_not_found w s repoToPull repo _ _ keyring creds hkr hl] at h
              cases h
              refine ⟨?_, fun _ hfetch => ?_⟩
              · rintro ⟨k1, n1, hmem, hk1, hl1⟩
                simp at hmem
                subst hmem
                rw [hkr] at hk1
                cases hk1
                rw [hl] at hl1
                cases hl1
              · have hone := hfetch repo (effectiveRef tag digest)
                  (anonymousAuth (normalize host)) (by simp)
                unfold exactlyOne at hone
                rcases hone with ⟨h1, h2⟩ | ⟨h1, h2⟩
                · exact Or.inl ⟨h1, by rw [h2]; rfl⟩
                · refine Or.inr ⟨h1, ?_⟩
                  cases hp : (w.PullManifest repo (effectiveRef tag digest)
                      (anonymousAuth (normalize host))).2 with
                  | none => exact absurd hp h2
                  | some e => simp
            | true =>
              rw [pullWith_found w s repoToPull repo _ _ keyring creds hkr hl] at h
              have h1 := congrArg Prod.fst h
              have h2 := congrArg Prod.snd h
              simp only [] at h1 h2
              cases creds with
              | nil =>
                simp only [candidateLoop, NewAggregate] at h1 h2
                cases h1
                subst h2
                refine ⟨fun _ => ⟨rfl, rfl, rfl, rfl⟩, fun hno _ => ?_⟩
                exact absurd ⟨keyring, repoToPull, by simp, hkr, hl⟩ hno
              | cons c cs =>
                refine ⟨?_, fun _ hfetch => ?_⟩
                · rintro ⟨k1, n1, hmem, hk1, hl1⟩
                  rw [← h2] at hmem
                  rcases mem_candidateLoop_log w repo _ _ (c :: cs) [] _ _ hmem with
                    h3 | ⟨c1, _, h3 | h3⟩
                  · simp at h3
                    subst h3
                    rw [hkr] at hk1
                    cases hk1
                    rw [hl] at hl1
                    cases hl1
                  · cases h3
                  · cases h3
                · rcases candidateLoop_outcome w repo (effectiveRef tag digest)
                    (normalize host) (c :: cs) [] [Event.lookup repoToPull] with
                    ⟨c1, _, m, hm, hmem, hout⟩ | ⟨errs, hlen, hout⟩
                  · rw [hout] at h1
                    cases h1
                    rw [h2] at hmem
                    have hone := hfetch _ _ _ hmem
                    unfold fetchFor at hm
                    rw [hm] at hone
                    unfold exactlyOne at hone
                    rcases hone with ⟨h5, _⟩ | ⟨_, h6⟩
                    · exact Or.inl ⟨h5, rfl⟩
                    · exact absurd rfl h6
                  · rw [hout, List.nil_append] at h1
                    cases h1
                    cases errs with
                    | nil => simp at hlen
                    | cons e es => exact Or.inr ⟨rfl, by simp [NewAggregate]⟩
    · rw [pullImage_no_slash w img s repoToPull tag digest hparse hslash] at h
      cases h

/-- Witness for C6 (amended): a run of `demo` that returns a manifest and
the run of `emptyFound` that returns nothing. -/
theorem pullImage_one_outcome_witness :
    (((some "manifest of appscode/voyager" : Option String) ≠ none ∧
          (none : Option (PullError String)) = none) ∨
        ((some "manifest of appscode/voyager" : Option String) = none ∧
          (none : Option (PullError String)) ≠ none)) ∧
      ((none : Option String) = none ∧
        (none : Option (PullError String)) = none ∧
        fetchCount (PullImage emptyFound "r.example/team/app:1" ()).2 = 0 ∧
        provideCount (PullImage emptyFound "r.example/team/app:1" ()).2 = 0) :=
  ⟨(pullImage_one_outcome demo "docker.io/appscode/voyager:6.0.0" ()
        (some "manifest of appscode/voyager") none
        (PullImage demo "docker.io/appscode/voyager:6.0.0" ()).2 (by decide)).2
      (by
        rintro ⟨keyring, repoToPull, hmem, _, hl⟩
        have hlog : (PullImage demo "docker.io/appscode/voyager:6.0.0" ()).2 =
            [Event.lookup "docker.io/appscode/voyager",
             Event.fetch "appscode/voyager" "6.0.0"
               { Username := "", Password := "", Auth := "",
                 ServerAddress := "https://registry-1.docker.io" }] := by decide
        rw [hlog] at hmem
        simp at hmem
        subst hmem
        have hnone : demo.Lookup keyring "docker.io/appscode/voyager" = ([], false) := rfl
        rw [hnone] at hl
        cases hl)
      (by
        intro repo ref auth hmem
        have hlog : (PullImage demo "docker.io/appscode/voyager:6.0.0" ()).2 =
            [Event.lookup "docker.io/appscode/voyager",
             Event.fetch "appscode/voyager" "6.0.0"
               { Username := "", Password := "", Auth := "",
                 ServerAddress := "https://registry-1.docker.io" }] := by decide
        rw [hlog] at hmem
        simp at hmem
        obtain ⟨rfl, rfl, rfl⟩ := hmem
        exact Or.inl ⟨by decide, by decide⟩),
    (pullImage_one_outcome emptyFound "r.example/team/app:1" () none none
        (PullImage emptyFound "r.example/team/app:1" ()).2 (by decide)).1
      ⟨(), "r.example/team/app", by decide, rfl, rfl⟩⟩

/-- C7 (counterexample): for the input `"docker.io/appscode/voyager:6.0.0"`
and a keyring whose only candidate brings the server address
`"http://mirror.example"`, the one fetch `PullImage` makes is made against
that address and not against `"https://registry-1.docker.io"`. -/
theorem hub_alias_canonical_endpoint_counterexample :
    mirrored.ParseImageName "docker.io/appscode/voyager:6.0.0" =
        Except.ok ("docker.io/appscode/voyager", "6.0.0", "") ∧
      PullImage mirrored "docker.io/appscode/voyager:6.0.0" () =
        (Outcome.returned (some "manifest of appscode/voyager") none,
          [Event.lookup "docker.io/appscode/voyager",
           Event.provide 2,
           Event.fetch "appscode/voyager" "6.0.0"
             { Username := "dave", Password := "d", Auth := "",
               ServerAddress := "http://mirror.example" }]) ∧
      fetchCount (PullImage mirrored "docker.io/appscode/voyager:6.0.0" ()).2 = 1 ∧
      "http://mirror.example" ≠ "https://registry-1.docker.io" := by
  refine ⟨rfl, by decide, by decide, by decide⟩

/-- C7 (amended): every registry host that begins with `"docker.io"` or with
`"index.docker.io"` is normalised to `"https://registry-1.docker.io"`.  For a
reference parsed to the name `"docker.io/appscode/voyager"` with tag
`"6.0.0"`, once the endpoint is accepted and the keyring is built: when the
lookup reports not found, exactly one fetch is made, anonymously, against
`"https://registry-1.docker.io"` with repository `"appscode/voyager"` and ref
`"6.0.0"`; when it reports found, the candidates are fetched in order, the
first one at least, each with that repository and that ref and with the
server address `"https://registry-1.docker.io"` if its credential brings
none, and with the credential's own address otherwise. -/
theorem hub_alias_canonical_endpoint {S K C E M : Type}
    (h : String)
    (halias : HasPrefix h "docker.io" = true ∨ HasPrefix h "index.docker.io" = true) :
    normalize h = "https://registry-1.docker.io" ∧
      ∀ (w : Collaborators S K C E M) (img : String) (s : S) (digest : String)
        (keyring : K) (creds : List C) (found : Bool),
        w.ParseImageName img =
          Except.ok ("docker.io/appscode/voyager", "6.0.0", digest) →
        w.urlParse "https://registry-1.docker.io" = none →
        w.MakeDockerKeyring s = Except.ok keyring →
        w.Lookup keyring "docker.io/appscode/voyager" = (creds, found) →
          (found = false →
            (PullImage w img s).2 =
              [Event.lookup "docker.io/appscode/voyager",
               Event.fetch "appscode/voyager" "6.0.0"
                 { Username := "", Password := "", Auth := "",
                   ServerAddress := "https://registry-1.docker.io" }]) ∧
          (found = true →
            ∃ k : Nat, k ≤ creds.length ∧ (creds ≠ [] → 1 ≤ k) ∧
              (PullImage w img s).2 =
                Event.lookup "docker.io/appscode/voyager" ::
                  (creds.take k).flatMap fun c =>
                    [Event.provide c,
                     Event.fetch "appscode/voyager" "6.0.0"
                       { Username := (w.LazyProvide c).Username
                         Password := (w.LazyProvide c).Password
                         Auth := (w.LazyProvide c).Auth
                         ServerAddress :=
                           if (w.LazyProvide c).ServerAddress = "" then
                             "https://registry-1.docker.io"
                           else (w.LazyProvide c).ServerAddress }]) := by
  refine ⟨?_, ?_⟩
  · apply normalize_of_isHubAlias
    unfold isHubAlias
    rcases halias with h1 | h1 <;> simp [h1]
  intro w img s digest keyring creds found hparse hurl hkr hlook
  have hsplit : SplitN "docker.io/appscode/voyager" '/' 2 = ["docker.io", "appscode/voyager"] := by
    decide
  have hnorm : normalize "docker.io" = "https://registry-1.docker.io" := by decide
  have href : effectiveRef "6.0.0" digest = "6.0.0" := by
    unfold effectiveRef
    rw [if_neg (by decide)]
  have hrun := pullImage_split w img s _ _ _ _ _ hparse hsplit
  rw [hnorm, hurl, href] at hrun
  simp only [] at hrun
  refine ⟨?_, ?_⟩
  · intro hf
    subst hf
    rw [hrun, pullWith_not_found w s _ _ _ _ keyring creds hkr hlook]
    rfl
  · intro hf
    subst hf
    rw [hrun, pullWith_found w s _ _ _ _ keyring creds hkr hlook]
    obtain ⟨k, hk, hk1, hlog⟩ := candidateLoop_log w "appscode/voyager" "6.0.0"
      "https://registry-1.docker.io" creds [] [Event.lookup "docker.io/appscode/voyager"]
    refine ⟨k, hk, hk1, ?_⟩
    rw [hlog]
    have hauth : ∀ c : C,
        candidateAuth "https://registry-1.docker.io" (w.LazyProvide c) =
          { Username := (w.LazyProvide c).Username
            Password := (w.LazyProvide c).Password
            Auth := (w.LazyProvide c).Auth
            ServerAddress :=
              if (w.LazyProvide c).ServerAddress = "" then "https://registry-1.docker.io"
              else (w.LazyProvide c).ServerAddress } := by
      intro c
      unfold candidateAuth
      by_cases hc : (w.LazyProvide c).ServerAddress = "" <;> simp [hc]
    simp only [attempts, hauth]
    rfl

/-- Witness for C7 (amended): the host `"index.docker.io:443"`; the hub
reference in `demo`, where no credentials match and one anonymous fetch goes
to the hub; and in `mirrored`, where the one candidate is fetched at its own
address. -/
theorem hub_alias_canonical_endpoint_witness :
    normalize "index.docker.io:443" = "https://registry-1.docker.io" ∧
      (PullImage demo "docker.io/appscode/voyager:6.0.0" ()).2 =
        [Event.lookup "docker.io/appscode/voyager",
         Event.fetch "appscode/voyager" "6.0.0"
           { Username := "", Password := "", Auth := "",
             ServerAddress := "https://registry-1.docker.io" }] ∧
      ∃ k : Nat, k ≤ ([2] : List Nat).length ∧ (([2] : List Nat) ≠ [] → 1 ≤ k) ∧
        (PullImage mirrored "docker.io/appscode/voyager:6.0.0" ()).2 =
          Event.lookup "docker.io/appscode/voyager" ::
            (([2] : List Nat).take k).flatMap fun c =>
              [Event.provide c,
               Event.fetch "appscode/voyager" "6.0.0"
                 { Username := (mirrored.LazyProvide c).Username
                   Password := (mirrored.LazyProvide c).Password
                   Auth := (mirrored.LazyProvide c).Auth
                   ServerAddress :=
                     if (mirrored.LazyProvide c).ServerAddress = "" then
                       "https://registry-1.docker.io"
                     else (mirrored.LazyProvide c).ServerAddress }] :=
  (fun h => ⟨h.1,
      (h.2 demo "docker.io/appscode/voyager:6.0.0" () "" () [] false rfl (by decide) rfl
        (by decide)).1 rfl,
      (h.2 mirrored "docker.io/appscode/voyager:6.0.0" () "" () [2] true rfl (by decide) rfl
        (by decide)).2 rfl⟩)
    (hub_alias_canonical_endpoint "index.docker.io:443" (Or.inr (by decide)))

/-- C8: for a parsed repository name that contains `'/'`, the name splits as
`host ++ "/" ++ repo` with no `'/'` in `host`, and every `PullManifest` call
of `PullImage` receives that `repo` (the whole remainder) and the ref that is
the tag when the tag is not empty and the digest otherwise. -/
theorem pullImage_fetch_arguments {S K C E M : Type}
    (w : Collaborators S K C E M) (img : String) (s : S)
    (repoToPull tag digest : String)
    (hparse : w.ParseImageName img = Except.ok (repoToPull, tag, digest))
    (hslash : '/' ∈ repoToPull.data) :
    ∃ host repo : String,
      SplitN repoToPull '/' 2 = [host, repo] ∧
      host ++ "/" ++ repo = repoToPull ∧ '/' ∉ host.data ∧
      ∀ (r f : String) (a : AuthConfig), Event.fetch r f a ∈ (PullImage w img s).2 →
        r = repo ∧ f = (if tag ≠ "" then tag else digest) := by
  obtain ⟨host, repo, hsplit, heq, hno⟩ := splitN_two_of_mem hslash
  refine ⟨host, repo, hsplit, heq.symm, hno, ?_⟩
  intro r f a hm
  obtain ⟨h1, h2, _⟩ := mem_pullImage_log w img s _ _ _ _ _ hparse hsplit r f a hm
  refine ⟨h1, ?_⟩
  rw [h2]
  unfold effectiveRef
  by_cases ht : tag = "" <;> simp [ht]

/-- Witness for C8: the name `"r.example/team/app"` of `demo`, whose
repository keeps its inner `'/'`. -/
theorem pullImage_fetch_arguments_witness :
    ∃ host repo : String,
      SplitN "r.example/team/app" '/' 2 = [host, repo] ∧
      host ++ "/" ++ repo = "r.example/team/app" ∧ '/' ∉ host.data ∧
      ∀ (r f : String) (a : AuthConfig),
        Event.fetch r f a ∈ (PullImage demo "r.example/team/app:1" ()).2 →
        r = repo ∧ f = (if "1" ≠ "" then "1" else "") :=
  pullImage_fetch_arguments demo "r.example/team/app:1" () "r.example/team/app" "1" ""
    rfl (by decide)

/-- C9: the endpoint normalisation is idempotent, and it leaves unchanged
every string that already begins with `"https://"`. -/
theorem normalize_idempotent (h g : String) (hg : HasPrefix g "https://" = true) :
    normalize (normalize h) = normalize h ∧ normalize g = g := by
  refine ⟨normalize_of_hasScheme (hasScheme_normalize h), normalize_of_hasScheme ?_⟩
  unfold hasScheme
  rw [hg]
  rfl

/-- Witness for C9: a hub alias, and an endpoint with its scheme. -/
theorem normalize_idempotent_witness :
    normalize (normalize "docker.io") = normalize "docker.io" ∧
      normalize "https://registry-1.docker.io" = "https://registry-1.docker.io" :=
  normalize_idempotent "docker.io" "https://registry-1.docker.io" (by decide)

/-- C10: when `PullImage` reaches the normalisation step (the parsed name
contains `'/'`), the host has no `'/'`, the scheme check of line 113 finds
neither prefix, and the endpoint is `"https://"` followed by
`"registry-1.docker.io"` for a hub alias and by the host itself otherwise.
The endpoint begins with `"https://"` and not with `"http://"`, and every
`PullManifest` call is made with that endpoint as server address unless its
candidate supplied a non-empty server address of its own. -/
theorem pullImage_endpoint_https {S K C E M : Type}
    (w : Collaborators S K C E M) (img : String) (s : S)
    (repoToPull tag digest : String)
    (hparse : w.ParseImageName img = Except.ok (repoToPull, tag, digest))
    (hslash : '/' ∈ repoToPull.data) :
    ∃ host repo : String,
      SplitN repoToPull '/' 2 = [host, repo] ∧ '/' ∉ host.data ∧
      hasScheme (if isHubAlias host then "registry-1.docker.io" else host) = false ∧
      normalize host =
        "https://" ++ (if isHubAlias host then "registry-1.docker.io" else host) ∧
      HasPrefix (normalize host) "https://" = true ∧
      HasPrefix (normalize host) "http://" = false ∧
      ∀ (r f : String) (a : AuthConfig), Event.fetch r f a ∈ (PullImage w img s).2 →
        a.ServerAddress = normalize host ∨
          ∃ c : C, (w.LazyProvide c).ServerAddress ≠ "" ∧
            a.ServerAddress = (w.LazyProvide c).ServerAddress := by
  obtain ⟨host, repo, hsplit, _, hno⟩ := splitN_two_of_mem hslash
  have hnorm := normalize_of_no_slash hno
  refine ⟨host, repo, hsplit, hno, ?_, hnorm, ?_, ?_, ?_⟩
  · by_cases ha : isHubAlias host = true
    · rw [if_pos ha]
      decide
    · rw [if_neg ha]
      exact hasScheme_false_of_no_slash hno
  · rw [hnorm]
    exact hasPrefix_append _ _
  · rw [hnorm]
    exact hasPrefix_https_not_http _
  · intro r f a hm
    obtain ⟨_, _, h3⟩ := mem_pullImage_log w img s _ _ _ _ _ hparse hsplit r f a hm
    rcases h3 with rfl | ⟨c, rfl⟩
    · exact Or.inl rfl
    · rw [candidateAuth_serverAddress]
      by_cases hc : (w.LazyProvide c).ServerAddress = ""
      · rw [if_pos hc]
        exact Or.inl rfl
      · rw [if_neg hc]
        exact Or.inr ⟨c, hc, rfl⟩

/-- Witness for C10: the name `"r.example/team/locked"` of `demo`, whose second
candidate keeps its own server address. -/
theorem pullImage_endpoint_https_witness :
    ∃ host repo : String,
      SplitN "r.example/team/locked" '/' 2 = [host, repo] ∧ '/' ∉ host.data ∧
      hasScheme (if isHubAlias host then "registry-1.docker.io" else host) = false ∧
      normalize host =
        "https://" ++ (if isHubAlias host then "registry-1.docker.io" else host) ∧
      HasPrefix (normalize host) "https://" = true ∧
      HasPrefix (normalize host) "http://" = false ∧
      ∀ (r f : String) (a : AuthConfig),
        Event.fetch r f a ∈ (PullImage demo "r.example/team/locked:1" ()).2 →
        a.ServerAddress = normalize host ∨
          ∃ c : Nat, (demo.LazyProvide c).ServerAddress ≠ "" ∧
            a.ServerAddress = (demo.LazyProvide c).ServerAddress :=
  pullImage_endpoint_https demo "r.example/team/locked:1" () "r.example/team/locked" "1" ""
    rfl (by decide)

end DockerDemo
